import Mathlib

/-!
Verification of the statistical analysis engine of an A/B-testing analytics
script (`analytics/analyze_experiments.py`) against its specification.

The script's engine is shallowly embedded here:
* SQL rows become Lean structures; the aggregation query of
  `get_experiment_data` becomes a pure function on lists of rows;
* pandas/numpy arithmetic on floats is modelled exactly over `ℚ`
  (every float literal of the script, such as `1.96`, is read as the
  rational it denotes), and special functions (`scipy.stats.norm.ppf`,
  the chi-square survival function) are modelled as the real
  mathematical functions they compute, via Mathlib's distribution
  measures;
* code that can raise a Python exception is embedded with `Except`.
-/

/-- Value obtained by `json_extract(ae.properties, '$.totalAmount')`:
either a JSON number (SQLite numeric storage), or a non-numeric value
(TEXT/BLOB storage, e.g. a JSON string or object), or absent (`NULL`,
when the property is missing — `filterMap` drops those before `MAX`).
Coercion by `pd.to_numeric(..., errors='coerce').fillna(0)` sends
non-numeric values to `0`; a TEXT value that happens to spell a decimal
number is outside this model. -/
inductive JVal where
  | num (q : ℚ)
  | other
  deriving DecidableEq

/-- Row of the `user_assignments` table. -/
structure UAssign where
  user_id : String
  variant_id : String
  experiment_id : String
  assigned_at : Int
  deriving DecidableEq

/-- Row of the `analytics_events` table, with `properties` represented by
its extracted `$.totalAmount` value. -/
structure AEvent where
  user_id : String
  event_type : String
  totalAmount : Option JVal
  deriving DecidableEq

/-- Row of the DataFrame produced by `get_experiment_data`: one row per
`(user_id, variant_id)` group of the SQL query, after the pandas
post-processing that adds `converted` and coerces `revenue`.
The selected `ua.assigned_at` column is an arbitrary representative of
the group (SQLite bare column in an aggregate query) and is unused by
every downstream computation, so it is not modelled. -/
structure Row where
  user_id : String
  variant_id : String
  conversions : Nat
  add_to_carts : Nat
  page_views : Nat
  revenue : ℚ
  converted : Bool
  deriving DecidableEq

/-- SQLite comparison underlying the `MAX` aggregate: numeric storage
classes sort below TEXT/BLOB, numbers compare by value. -/
def jmax : JVal → JVal → JVal
  | JVal.num a, JVal.num b => JVal.num (max a b)
  | _, _ => JVal.other

/-- SQLite `MAX` aggregate over the non-`NULL` extracted amounts:
`NULL` (`none`) on an empty bag. -/
def maxAmount (l : List JVal) : Option JVal :=
  l.foldr (fun v acc => match acc with
    | none => some v
    | some m => some (jmax v m)) none

/-- Numeric coercion `pd.to_numeric(..., errors='coerce').fillna(0)`
applied to the `MAX` result: `NULL` and non-numeric values become `0`. -/
def toNumeric : Option JVal → ℚ
  | none => 0
  | some (JVal.num q) => q
  | some JVal.other => 0

/-- Auxiliary for first-occurrence deduplication: `seen` accumulates the
elements already emitted. -/
def uniqueAux {α : Type} [DecidableEq α] (seen : List α) : List α → List α
  | [] => []
  | a :: l => if a ∈ seen then uniqueAux seen l else a :: uniqueAux (a :: seen) l

/-- First-occurrence deduplication, the order `pandas.Series.unique`
and SQL `GROUP BY` group enumeration are modelled with. -/
def uniqueKeep {α : Type} [DecidableEq α] (l : List α) : List α :=
  uniqueAux [] l

/-- Body of one output row of the aggregation query, for the group with
key `(u, v)`: `k` assignment rows share the key, and the `LEFT JOIN` on
`ua.user_id = ae.user_id` pairs each of them with every event of the
user (or with a single all-`NULL` event row if the user has none), so
each per-event-type tally is multiplied by `k`; `MAX` is insensitive to
the duplication.  `converted` is the pandas-added boolean
`conversions > 0`. -/
def mkRow (events : List AEvent) (filtered : List UAssign) (u v : String) : Row :=
  let k := (filtered.filter (fun a => a.user_id == u && a.variant_id == v)).length
  let uevents := events.filter (fun e => e.user_id == u)
  let purchases := uevents.filter (fun e => e.event_type == "purchase")
  let conversions := k * purchases.length
  { user_id := u
    variant_id := v
    conversions := conversions
    add_to_carts := k * (uevents.filter (fun e => e.event_type == "add_to_cart")).length
    page_views := k * (uevents.filter (fun e => e.event_type == "page_view")).length
    revenue := toNumeric (maxAmount (purchases.filterMap AEvent.totalAmount))
    converted := decide (0 < conversions) }

/-- Embedding of `ABTestAnalyzer.get_experiment_data`: the SQL query
(`WHERE ua.experiment_id = ?`, `LEFT JOIN` on user id, `GROUP BY
ua.user_id, ua.variant_id`, per-type `COUNT`s and `MAX` of the extracted
purchase amount) followed by the pandas `converted` / `revenue`
post-processing. -/
def get_experiment_data (experiment_id : String) (assigns : List UAssign)
    (events : List AEvent) : List Row :=
  let filtered := assigns.filter (fun a => a.experiment_id == experiment_id)
  (uniqueKeep (filtered.map (fun a => (a.user_id, a.variant_id)))).map
    (fun k => mkRow events filtered k.1 k.2)

/-- Written from the spec's words for claim C1: the sum of the numeric
`totalAmount` values over all of a user's `purchase` events, an absent
or non-numeric amount contributing `0`. -/
def purchaseAmountSum (events : List AEvent) (u : String) : ℚ :=
  ((events.filter (fun e => e.user_id == u && e.event_type == "purchase")).map
    (fun e => match e.totalAmount with
      | some (JVal.num q) => q
      | _ => 0)).sum

/-- Numeric amounts among the extracted values. -/
def numsOf (l : List JVal) : List ℚ :=
  l.filterMap (fun v => match v with
    | JVal.num q => some q
    | JVal.other => none)

/-- Characterisation of the revenue the code emits, written from the
source's `MAX`-based query for the amended claim C1: `0` if any
purchase carries a non-numeric amount (it wins the SQLite `MAX` and is
then coerced to `0`), otherwise the greatest numeric purchase amount,
`0` if there is none. -/
def maxRevenueSpec (events : List AEvent) (u : String) : ℚ :=
  let amts := ((events.filter
      (fun e => e.user_id == u && e.event_type == "purchase")).filterMap
    AEvent.totalAmount)
  if JVal.other ∈ amts then 0 else ((numsOf amts).maximum.unbot' 0)

lemma jmax_other_left (v : JVal) : jmax JVal.other v = JVal.other := by
  cases v <;> rfl

lemma jmax_other_right (v : JVal) : jmax v JVal.other = JVal.other := by
  cases v <;> rfl

lemma maxAmount_of_other_mem {l : List JVal} (h : JVal.other ∈ l) :
    maxAmount l = some JVal.other := by
  induction l with
  | nil => cases h
  | cons v l ih =>
    rcases List.mem_cons.mp h with h1 | h1
    · subst h1
      show (match maxAmount l with
        | none => some JVal.other
        | some m => some (jmax JVal.other m)) = some JVal.other
      cases maxAmount l with
      | none => rfl
      | some m => simp [jmax_other_left]
    · show (match maxAmount l with
        | none => some v
        | some m => some (jmax v m)) = some JVal.other
      rw [ih h1]
      simp [jmax_other_right]

lemma maxAmount_of_other_not_mem {l : List JVal} (h : JVal.other ∉ l) :
    maxAmount l = ((numsOf l).maximum.map JVal.num : Option JVal) := by
  induction l with
  | nil => rfl
  | cons v l ih =>
    have hv : v ≠ JVal.other := fun hv => h (hv ▸ List.mem_cons_self v l)
    have hl : JVal.other ∉ l := fun hl => h (List.mem_cons_of_mem _ hl)
    obtain ⟨q, rfl⟩ : ∃ q, v = JVal.num q := by
      cases v with
      | num q => exact ⟨q, rfl⟩
      | other => exact absurd rfl hv
    have hnums : numsOf (JVal.num q :: l) = q :: numsOf l := by
      simp [numsOf, List.filterMap_cons]
    show (match maxAmount l with
      | none => some (JVal.num q)
      | some m => some (jmax (JVal.num q) m)) =
        ((numsOf (JVal.num q :: l)).maximum.map JVal.num : Option JVal)
    rw [ih hl, hnums, List.maximum_cons]
    cases hm : (numsOf l).maximum with
    | bot => rw [max_eq_left bot_le]; rfl
    | coe m => rw [← WithBot.coe_max]; rfl

lemma toNumeric_maxAmount (l : List JVal) :
    toNumeric (maxAmount l) =
      if JVal.other ∈ l then 0 else ((numsOf l).maximum.unbot' 0) := by
  by_cases h : JVal.other ∈ l
  · rw [if_pos h, maxAmount_of_other_mem h]; rfl
  · rw [if_neg h, maxAmount_of_other_not_mem h]
    cases hm : (numsOf l).maximum with
    | bot => rfl
    | coe m => rfl

lemma mem_uniqueAux {α : Type} [DecidableEq α] :
    ∀ (l seen : List α) (x : α), x ∈ uniqueAux seen l → x ∈ l ∧ x ∉ seen := by
  intro l
  induction l with
  | nil => intro seen x hx; cases hx
  | cons a l ih =>
    intro seen x hx
    rw [uniqueAux] at hx
    by_cases ha : a ∈ seen
    · rw [if_pos ha] at hx
      obtain ⟨h1, h2⟩ := ih seen x hx
      exact ⟨List.mem_cons_of_mem _ h1, h2⟩
    · rw [if_neg ha] at hx
      rcases List.mem_cons.mp hx with h | h
      · exact ⟨h ▸ List.mem_cons_self _ _, h ▸ ha⟩
      · obtain ⟨h1, h2⟩ := ih (a :: seen) x h
        exact ⟨List.mem_cons_of_mem _ h1,
          fun hs => h2 (List.mem_cons_of_mem _ hs)⟩

lemma mem_of_mem_uniqueKeep {α : Type} [DecidableEq α]
    (l : List α) (x : α) (h : x ∈ uniqueKeep l) : x ∈ l :=
  (mem_uniqueAux l [] x h).1

lemma uniqueAux_nodup {α : Type} [DecidableEq α] :
    ∀ (l seen : List α), (uniqueAux seen l).Nodup := by
  intro l
  induction l with
  | nil => intro seen; exact List.nodup_nil
  | cons a l ih =>
    intro seen
    rw [uniqueAux]
    by_cases ha : a ∈ seen
    · rw [if_pos ha]; exact ih seen
    · rw [if_neg ha]
      refine List.Nodup.cons (fun hmem => ?_) (ih (a :: seen))
      exact (mem_uniqueAux l (a :: seen) a hmem).2 (List.mem_cons_self _ _)

lemma uniqueKeep_nodup {α : Type} [DecidableEq α] (l : List α) :
    (uniqueKeep l).Nodup :=
  uniqueAux_nodup l []

/-- C1, counterexample: the spec says revenue is the SUM of a user's
purchase amounts; the query computes `MAX(...)`.  A user with two
purchases of 5 and 10 gets revenue 10, not 15. -/
theorem C1_revenue_sum_counterexample :
    ¬ ∀ r ∈ get_experiment_data "e" [⟨"u", "A", "e", 0⟩]
        [⟨"u", "purchase", some (JVal.num 5)⟩,
         ⟨"u", "purchase", some (JVal.num 10)⟩],
      r.revenue = purchaseAmountSum
        [⟨"u", "purchase", some (JVal.num 5)⟩,
         ⟨"u", "purchase", some (JVal.num 10)⟩] r.user_id := by
  intro h
  have hmem : (mkRow [⟨"u", "purchase", some (JVal.num 5)⟩,
         ⟨"u", "purchase", some (JVal.num 10)⟩] [⟨"u", "A", "e", 0⟩] "u" "A") ∈
      get_experiment_data "e" [⟨"u", "A", "e", 0⟩]
        [⟨"u", "purchase", some (JVal.num 5)⟩,
         ⟨"u", "purchase", some (JVal.num 10)⟩] := by
    simp [get_experiment_data, uniqueKeep, uniqueAux]
  have h2 := h _ hmem
  rw [show (mkRow [⟨"u", "purchase", some (JVal.num 5)⟩,
         ⟨"u", "purchase", some (JVal.num 10)⟩] [⟨"u", "A", "e", 0⟩] "u" "A").revenue =
      toNumeric (maxAmount [JVal.num 5, JVal.num 10]) from by
        simp [mkRow]] at h2
  rw [show (mkRow [⟨"u", "purchase", some (JVal.num 5)⟩,
         ⟨"u", "purchase", some (JVal.num 10)⟩] [⟨"u", "A", "e", 0⟩] "u" "A").user_id =
      "u" from rfl] at h2
  simp [toNumeric, maxAmount, jmax, purchaseAmountSum] at h2
  norm_num at h2

/-- C1, amended: for every user aggregated by `get_experiment_data`, the
row's revenue equals the numeric coercion of the SQLite `MAX` (not the
sum) of the extracted `totalAmount` values over the user's `purchase`
events: the greatest numeric amount; `0` if the maximum is non-numeric,
if every amount is absent, or if the user never purchased — never
null/undefined. -/
theorem C1_revenue_is_max (eid : String) (assigns : List UAssign)
    (events : List AEvent) (r : Row)
    (hr : r ∈ get_experiment_data eid assigns events) :
    r.revenue = maxRevenueSpec events r.user_id := by
  unfold get_experiment_data at hr
  obtain ⟨k, _, rfl⟩ := List.mem_map.mp hr
  show toNumeric (maxAmount _) = _
  have hfil : ((events.filter (fun e => e.user_id == k.1)).filter
      (fun e => e.event_type == "purchase")) =
      events.filter (fun e => e.user_id == k.1 && e.event_type == "purchase") := by
    rw [List.filter_filter]
    exact List.filter_congr (fun a _ => Bool.and_comm _ _)
  rw [toNumeric_maxAmount, maxRevenueSpec]
  show _ = if JVal.other ∈ (events.filter
      (fun e => e.user_id == (mkRow events _ k.1 k.2).user_id &&
        e.event_type == "purchase")).filterMap AEvent.totalAmount then 0 else _
  rw [show (mkRow events (assigns.filter (fun a => a.experiment_id == eid))
      k.1 k.2).user_id = k.1 from rfl, ← hfil]

/-- Witness for `C1_revenue_is_max` at a concrete input. -/
theorem C1_revenue_is_max_witness :
    (mkRow [⟨"u", "purchase", some (JVal.num 5)⟩] [⟨"u", "A", "e", 0⟩] "u" "A")
        ∈ get_experiment_data "e" [⟨"u", "A", "e", 0⟩]
          [⟨"u", "purchase", some (JVal.num 5)⟩] ∧
      (mkRow [⟨"u", "purchase", some (JVal.num 5)⟩] [⟨"u", "A", "e", 0⟩] "u" "A").revenue =
        maxRevenueSpec [⟨"u", "purchase", some (JVal.num 5)⟩]
          (mkRow [⟨"u", "purchase", some (JVal.num 5)⟩] [⟨"u", "A", "e", 0⟩] "u" "A").user_id :=
  ⟨by simp [get_experiment_data, uniqueKeep, uniqueAux],
    C1_revenue_is_max "e" [⟨"u", "A", "e", 0⟩]
      [⟨"u", "purchase", some (JVal.num 5)⟩] _
      (by simp [get_experiment_data, uniqueKeep, uniqueAux])⟩

/-- C3, counterexample: a user with conflicting assignment rows (two
variants in the same experiment) is emitted once per distinct variant —
two rows, not one — because the query groups by `(user_id, variant_id)`
and never deduplicates per user. -/
theorem C3_one_row_per_user_counterexample :
    ¬ ((get_experiment_data "e" [⟨"u", "A", "e", 0⟩, ⟨"u", "B", "e", 0⟩] []).filter
        (fun r => r.user_id == "u")).length ≤ 1 := by
  simp [get_experiment_data, uniqueKeep, uniqueAux, mkRow]

/-- C3, amended: the aggregator emits exactly one row per distinct
`(user, variant)` pair — the key list is deduplicated on first
occurrence — but a user with conflicting assignment rows for distinct
variants yields one row per conflicting variant (the user is counted
once per variant, not once overall, and no variant "wins"). -/
theorem C3_unique_user_variant_pairs (eid : String) (assigns : List UAssign)
    (events : List AEvent) :
    ((get_experiment_data eid assigns events).map
      (fun r => (r.user_id, r.variant_id))).Nodup := by
  unfold get_experiment_data
  rw [List.map_map]
  have hc : ((fun r : Row => (r.user_id, r.variant_id)) ∘
      (fun k : String × String => mkRow events
        (assigns.filter (fun a => a.experiment_id == eid)) k.1 k.2)) =
      fun k => (k.1, k.2) := rfl
  rw [hc]
  simpa using uniqueKeep_nodup _

/-- Survival function of the chi-square distribution with 1 degree of
freedom (the only case `statistical_significance_test` hits, its tables
being 2×2), which is the Gamma distribution with shape 1/2 and rate 1/2.
This is the mathematical function `scipy.stats.chi2.sf(x, 1)` computes,
expressed with Mathlib's Gamma-distribution measure. -/
noncomputable def chi2SF1 (x : ℚ) : ℝ :=
  (ProbabilityTheory.gammaMeasure (1/2) (1/2) (Set.Ioi (x : ℝ))).toReal

lemma gammaPDF_half_Iic_zero :
    ∫⁻ y in Set.Iic (0 : ℝ), ProbabilityTheory.gammaPDF (1/2) (1/2) y = 0 := by
  have hz : ∀ y ∈ Set.Iic (0 : ℝ), ProbabilityTheory.gammaPDF (1/2) (1/2) y = 0 := by
    intro y hy
    rcases lt_or_eq_of_le (Set.mem_Iic.mp hy) with h | h
    · exact ProbabilityTheory.gammaPDF_of_neg h
    · subst h
      rw [ProbabilityTheory.gammaPDF_of_nonneg le_rfl]
      rw [show ((0 : ℝ) ^ ((1 : ℝ)/2 - 1)) = 0 from
        Real.zero_rpow (by norm_num)]
      simp
  rw [MeasureTheory.setLIntegral_congr_fun measurableSet_Iic
    (MeasureTheory.ae_of_all _ hz)]
  simp

lemma chi2SF1_zero : chi2SF1 0 = 1 := by
  have hP : MeasureTheory.IsProbabilityMeasure
      (ProbabilityTheory.gammaMeasure (1/2 : ℝ) (1/2)) :=
    ProbabilityTheory.isProbabilityMeasureGamma (by norm_num) (by norm_num)
  have hIic : ProbabilityTheory.gammaMeasure (1/2 : ℝ) (1/2) (Set.Iic 0) = 0 := by
    rw [ProbabilityTheory.gammaMeasure,
      MeasureTheory.withDensity_apply _ measurableSet_Iic]
    exact gammaPDF_half_Iic_zero
  have hcompl : ProbabilityTheory.gammaMeasure (1/2 : ℝ) (1/2) (Set.Ioi 0) = 1 := by
    rw [← Set.compl_Iic,
      MeasureTheory.measure_compl measurableSet_Iic (MeasureTheory.measure_ne_top _ _),
      hIic, hP.measure_univ]
    simp
  rw [chi2SF1, Rat.cast_zero, hcompl]
  simp

/-- Outcome of `statistical_significance_test`: `controlNotFound` models
the returned dict `{'error': 'Control variant not found'}`;
`zeroExpected` models the `ValueError` that `scipy.stats.chi2_contingency`
raises when an internally computed expected frequency is zero (the
exception propagates, aborting the whole call). -/
inductive SigError where
  | controlNotFound
  | zeroExpected
  deriving DecidableEq

/-- Entry of the results dict of `statistical_significance_test`.
`p_value`, `effect_size` and the threshold comparison `significant` are
real-valued; the remaining fields are exact rationals. -/
structure SigResult where
  p_value : ℝ
  chi_square : ℚ
  significant : Prop
  effect_size : ℝ
  relative_lift_percent : ℚ
  control_rate : ℚ
  variant_rate : ℚ

/-- Yates continuity adjustment scipy applies by default when dof = 1:
each observed cell moves toward its expected value by
`min(0.5, |expected - observed|)` (`observed + magnitude * direction`
with `direction = sign(expected - observed)`). -/
def yatesAdj (o e : ℚ) : ℚ :=
  o + (if 0 < e - o then 1 else if e - o < 0 then -1 else 0) * min (1/2) |e - o|

/-- Embedding of `scipy.stats.chi2_contingency` on the 2×2 table
`[[a, b], [c, d]]` with its default `correction=True` (dof = 1 here, so
the Yates adjustment applies): expected frequencies `row_sum*col_sum/N`;
a zero expected frequency raises `ValueError` (`zeroExpected`); otherwise
the Pearson statistic of the adjusted table is returned.  The `N = 0`
table cannot arise from `statistical_significance_test` (both groups are
nonempty there); in ℚ, division by zero makes every expected frequency
`0`, so that unreachable case also maps to `zeroExpected`. -/
def chi2_contingency_2x2 (a b c d : ℚ) : Except SigError ℚ :=
  let n := a + b + c + d
  let e11 := (a + b) * (a + c) / n
  let e12 := (a + b) * (b + d) / n
  let e21 := (c + d) * (a + c) / n
  let e22 := (c + d) * (b + d) / n
  if e11 = 0 ∨ e12 = 0 ∨ e21 = 0 ∨ e22 = 0 then Except.error SigError.zeroExpected
  else Except.ok ((yatesAdj a e11 - e11)^2 / e11 + (yatesAdj b e12 - e12)^2 / e12 +
    (yatesAdj c e21 - e21)^2 / e21 + (yatesAdj d e22 - e22)^2 / e22)

/-- Result entry built for one non-control variant: key
`f'{control}_vs_{variant}'`, p-value from the chi-square survival
function, effect size `sqrt(chi2 / (N * (min(shape) - 1)))` with the
table total `N` and `shape = (2, 2)`, relative lift with the
`control_rate > 0` guard, and the rates with their `> 0` guards. -/
noncomputable def mkSigEntry (control v : String) (cc cu vc vu : ℕ) (chi2 : ℚ) :
    String × SigResult :=
  let n : ℚ := (cc : ℚ) + ((cu : ℚ) - (cc : ℚ)) + (vc : ℚ) + ((vu : ℚ) - (vc : ℚ))
  let control_rate : ℚ := if 0 < cu then (cc : ℚ) / (cu : ℚ) else 0
  let variant_rate : ℚ := if 0 < vu then (vc : ℚ) / (vu : ℚ) else 0
  (control ++ "_vs_" ++ v,
    { p_value := chi2SF1 chi2
      chi_square := chi2
      significant := chi2SF1 chi2 < 1/20
      effect_size := Real.sqrt ((chi2 : ℝ) / ((n : ℝ) * (min (2 : ℝ) 2 - 1)))
      relative_lift_percent := if 0 < control_rate then
        (variant_rate - control_rate) / control_rate * 100 else 0
      control_rate := control_rate
      variant_rate := variant_rate })

/-- Loop of `statistical_significance_test` over the distinct variants
(first-occurrence order, as `df['variant_id'].unique()` yields), skipping
the control.  A `ValueError` raised by `chi2_contingency` for any variant
aborts the whole call, discarding every entry. -/
noncomputable def sigLoop (df : List Row) (control : String) (cc cu : ℕ) :
    List String → Except SigError (List (String × SigResult))
  | [] => Except.ok []
  | v :: vs =>
    if v = control then sigLoop df control cc cu vs
    else
      let vd := df.filter (fun r => r.variant_id == v)
      let vc := vd.countP (fun r => r.converted)
      let vu := vd.length
      match chi2_contingency_2x2 (cc : ℚ) ((cu : ℚ) - (cc : ℚ))
          (vc : ℚ) ((vu : ℚ) - (vc : ℚ)) with
      | Except.error e => Except.error e
      | Except.ok chi2 =>
        match sigLoop df control cc cu vs with
        | Except.error e => Except.error e
        | Except.ok rest => Except.ok (mkSigEntry control v cc cu vc vu chi2 :: rest)

/-- Embedding of `ABTestAnalyzer.statistical_significance_test`: an empty
control group returns the error dict (`controlNotFound`); otherwise each
non-control variant is compared to the control through the 2×2
contingency table `[[cc, cu-cc], [vc, vu-vc]]`. -/
noncomputable def statistical_significance_test (df : List Row)
    (control_variant : String := "control") :
    Except SigError (List (String × SigResult)) :=
  let control_data := df.filter (fun r => r.variant_id == control_variant)
  if control_data.length = 0 then Except.error SigError.controlNotFound
  else sigLoop df control_variant (control_data.countP (fun r => r.converted))
    control_data.length (uniqueKeep (df.map (fun r => r.variant_id)))

/-- C9: if no row carries the control variant, the call returns the
`{'error': 'Control variant not found'}` dict — surfaced to the caller,
with no per-variant comparison computed. -/
theorem C9_control_not_found (df : List Row) (control : String)
    (h : (df.filter (fun r => r.variant_id == control)).length = 0) :
    statistical_significance_test df control =
      Except.error SigError.controlNotFound := by
  unfold statistical_significance_test
  rw [if_pos h]

/-- Witness for `C9_control_not_found` at a concrete input. -/
theorem C9_control_not_found_witness :
    statistical_significance_test [⟨"u1", "B", 0, 0, 0, 0, false⟩] "control" =
      Except.error SigError.controlNotFound :=
  C9_control_not_found _ _ (by simp)

/-- C2, the code crashes instead: with both groups present but zero
conversions everywhere, the contingency table `[[0,1],[0,1]]` has a zero
column, every expected frequency of that column is zero, and
`scipy.stats.chi2_contingency` raises `ValueError` — the call aborts
with no conventional fallback `p=1.0 / chi2=0.0` anywhere in the code. -/
theorem C2_degenerate_table_raises :
    statistical_significance_test
      [⟨"u1", "control", 0, 0, 0, 0, false⟩, ⟨"u2", "B", 0, 0, 0, 0, false⟩]
      "control" = Except.error SigError.zeroExpected := by
  simp [statistical_significance_test, sigLoop, chi2_contingency_2x2,
    uniqueKeep, uniqueAux]

lemma sigLoop_ok_mem (df : List Row) (control : String) (cc cu : ℕ) :
    ∀ (vs : List String) (res : List (String × SigResult)) (e : String × SigResult),
      sigLoop df control cc cu vs = Except.ok res → e ∈ res →
      ∃ v chi2, e = mkSigEntry control v cc cu
          ((df.filter (fun r => r.variant_id == v)).countP (fun r => r.converted))
          (df.filter (fun r => r.variant_id == v)).length chi2 := by
  intro vs
  induction vs with
  | nil =>
    intro res e h he
    rw [sigLoop] at h
    cases h
    cases he
  | cons v vs ih =>
    intro res e h he
    simp only [sigLoop] at h
    by_cases hv : v = control
    · rw [if_pos hv] at h
      exact ih res e h he
    · rw [if_neg hv] at h
      cases hchi : chi2_contingency_2x2 ((cc : ℚ)) ((cu : ℚ) - (cc : ℚ))
          (((df.filter (fun r => r.variant_id == v)).countP (fun r => r.converted) : ℚ))
          (((df.filter (fun r => r.variant_id == v)).length : ℚ) -
            ((df.filter (fun r => r.variant_id == v)).countP (fun r => r.converted) : ℚ)) with
      | error e' => rw [hchi] at h; cases h
      | ok chi2 =>
        rw [hchi] at h
        cases hrec : sigLoop df control cc cu vs with
        | error e' => rw [hrec] at h; cases h
        | ok rest =>
          rw [hrec] at h
          cases h
          rcases List.mem_cons.mp he with he1 | he1
          · exact ⟨v, chi2, he1⟩
          · exact ih rest e hrec he1

lemma rate_if_bounds (c u : ℕ) (hcu : c ≤ u) :
    0 ≤ (if 0 < u then (c : ℚ) / (u : ℚ) else 0) ∧
      (if 0 < u then (c : ℚ) / (u : ℚ) else 0) ≤ 1 := by
  by_cases h : 0 < u
  · rw [if_pos h]
    constructor
    · positivity
    · rw [div_le_one (by exact_mod_cast h)]
      exact_mod_cast hcu
  · rw [if_neg h]
    norm_num

/-- C10: for every comparison the test emits, the control and variant
rates lie in [0,1]; and for every variant group of the input, the
conversion count never exceeds the user count (because `converted` is a
boolean, each row contributes at most one conversion), so all four cells
`[[cc, cu-cc], [vc, vu-vc]]` of every contingency table built are
non-negative. -/
theorem C10_rates_and_cells (df : List Row) (control v : String)
    (res : List (String × SigResult)) (e : String × SigResult)
    (hok : statistical_significance_test df control = Except.ok res)
    (he : e ∈ res) :
    (0 ≤ e.2.control_rate ∧ e.2.control_rate ≤ 1 ∧
      0 ≤ e.2.variant_rate ∧ e.2.variant_rate ≤ 1) ∧
    (0 : ℚ) ≤ ((df.filter (fun r => r.variant_id == v)).countP
        (fun r => r.converted) : ℚ) ∧
    ((df.filter (fun r => r.variant_id == v)).countP (fun r => r.converted) : ℚ) ≤
      ((df.filter (fun r => r.variant_id == v)).length : ℚ) := by
  refine ⟨?_, by positivity, by exact_mod_cast List.countP_le_length _⟩
  simp only [statistical_significance_test] at hok
  by_cases hc : (df.filter (fun r => r.variant_id == control)).length = 0
  · rw [if_pos hc] at hok; cases hok
  · rw [if_neg hc] at hok
    obtain ⟨w, chi2, rfl⟩ := sigLoop_ok_mem df control _ _ _ res e hok he
    have hcc := List.countP_le_length (l := df.filter
      (fun r => r.variant_id == control)) (fun r => r.converted)
    have hvc := List.countP_le_length (l := df.filter
      (fun r => r.variant_id == w)) (fun r => r.converted)
    exact ⟨(rate_if_bounds _ _ hcc).1, (rate_if_bounds _ _ hcc).2,
      (rate_if_bounds _ _ hvc).1, (rate_if_bounds _ _ hvc).2⟩

/-- Witness for `C10_rates_and_cells` at a concrete input. -/
theorem C10_rates_and_cells_witness :
    ((0 : ℚ) ≤ (mkSigEntry "control" "B" 1 2 1 2 0).2.control_rate ∧
      (mkSigEntry "control" "B" 1 2 1 2 0).2.control_rate ≤ 1 ∧
      0 ≤ (mkSigEntry "control" "B" 1 2 1 2 0).2.variant_rate ∧
      (mkSigEntry "control" "B" 1 2 1 2 0).2.variant_rate ≤ 1) ∧
    (0 : ℚ) ≤ (([⟨"u1", "control", 1, 0, 0, 0, true⟩,
        ⟨"u2", "control", 0, 0, 0, 0, false⟩, ⟨"u3", "B", 1, 0, 0, 0, true⟩,
        ⟨"u4", "B", 0, 0, 0, 0, false⟩] : List Row).filter
          (fun r => r.variant_id == "B")).countP (fun r => r.converted) ∧
    ((([⟨"u1", "control", 1, 0, 0, 0, true⟩, ⟨"u2", "control", 0, 0, 0, 0, false⟩,
        ⟨"u3", "B", 1, 0, 0, 0, true⟩, ⟨"u4", "B", 0, 0, 0, 0, false⟩] : List Row).filter
          (fun r => r.variant_id == "B")).countP (fun r => r.converted) : ℚ) ≤
      ((([⟨"u1", "control", 1, 0, 0, 0, true⟩, ⟨"u2", "control", 0, 0, 0, 0, false⟩,
        ⟨"u3", "B", 1, 0, 0, 0, true⟩, ⟨"u4", "B", 0, 0, 0, 0, false⟩] : List Row).filter
          (fun r => r.variant_id == "B")).length : ℚ) :=
  C10_rates_and_cells
    [⟨"u1", "control", 1, 0, 0, 0, true⟩, ⟨"u2", "control", 0, 0, 0, 0, false⟩,
     ⟨"u3", "B", 1, 0, 0, 0, true⟩, ⟨"u4", "B", 0, 0, 0, 0, false⟩]
    "control" "B" [mkSigEntry "control" "B" 1 2 1 2 0] _
    (by simp [statistical_significance_test, sigLoop, chi2_contingency_2x2,
          uniqueKeep, uniqueAux, yatesAdj]
        norm_num [min_def])
    (List.mem_singleton_self _)

/-- Written from the claim's words for C4: the Yates-UNcorrected Pearson
chi-square statistic of the 2×2 table `[[a, b], [c, d]]`. -/
def pearsonChi2_2x2 (a b c d : ℚ) : ℚ :=
  let n := a + b + c + d
  let e11 := (a + b) * (a + c) / n
  let e12 := (a + b) * (b + d) / n
  let e21 := (c + d) * (a + c) / n
  let e22 := (c + d) * (b + d) / n
  (a - e11)^2 / e11 + (b - e12)^2 / e12 + (c - e21)^2 / e21 + (d - e22)^2 / e22

/-- Closed form of the Yates-corrected statistic scipy actually computes
on a 2×2 table (`correction=True`, the default, applies at dof = 1):
`N * (max(|ad - bc| - N/2, 0))² / (r1*r2*c1*c2)`. -/
def yatesChi2Spec (a b c d : ℚ) : ℚ :=
  let n := a + b + c + d
  n * (max (|a * d - b * c| - n / 2) 0)^2 / ((a + b) * (c + d) * (a + c) * (b + d))

lemma yatesAdj_sq (o e : ℚ) :
    (yatesAdj o e - e)^2 = (max (|o - e| - 1/2) 0)^2 := by
  unfold yatesAdj
  rcases lt_trichotomy (e - o) 0 with h | h | h
  · rw [if_neg (by linarith), if_pos h]
    have habs : |e - o| = o - e := by rw [abs_of_neg h]; ring
    have habs' : |o - e| = o - e := abs_of_pos (by linarith)
    rw [habs, habs']
    rcases le_or_lt (o - e) (1/2) with hle | hlt
    · rw [min_eq_right hle, max_eq_right (by linarith)]
      ring
    · rw [min_eq_left hlt.le, max_eq_left (by linarith)]
      ring
  · have ho : o = e := by linarith
    subst ho
    simp
  · rw [if_pos h]
    have habs : |e - o| = e - o := abs_of_pos h
    have habs' : |o - e| = e - o := by rw [abs_sub_comm]; exact habs
    rw [habs, habs']
    rcases le_or_lt (e - o) (1/2) with hle | hlt
    · rw [min_eq_right hle, max_eq_right (by linarith)]
      ring
    · rw [min_eq_left hlt.le, max_eq_left (by linarith)]
      ring

lemma chi2_contingency_2x2_eq_yates (a b c d x : ℚ)
    (ha : 0 ≤ a) (hb : 0 ≤ b) (hc : 0 ≤ c) (hd : 0 ≤ d)
    (hok : chi2_contingency_2x2 a b c d = Except.ok x) :
    x = yatesChi2Spec a b c d := by
  simp only [chi2_contingency_2x2] at hok
  set n := a + b + c + d with hn
  by_cases hguard : (a+b)*(a+c)/n = 0 ∨ (a+b)*(b+d)/n = 0 ∨
      (c+d)*(a+c)/n = 0 ∨ (c+d)*(b+d)/n = 0
  · rw [if_pos hguard] at hok; cases hok
  · rw [if_neg hguard] at hok
    push_neg at hguard
    obtain ⟨h11, h12, h21, h22⟩ := hguard
    have hN : n ≠ 0 := fun h0 => h11 (by rw [h0, div_zero])
    have hr1 : a + b ≠ 0 := fun h0 => h11 (by rw [h0, zero_mul, zero_div])
    have hc1 : a + c ≠ 0 := fun h0 => h11 (by rw [h0, mul_zero, zero_div])
    have hr2 : c + d ≠ 0 := fun h0 => h21 (by rw [h0, zero_mul, zero_div])
    have hc2 : b + d ≠ 0 := fun h0 => h12 (by rw [h0, mul_zero, zero_div])
    have hNpos : 0 < n := lt_of_le_of_ne (by positivity) (Ne.symm hN)
    have k11 : a - (a+b)*(a+c)/n = (a*d - b*c)/n := by field_simp; ring
    have k12 : b - (a+b)*(b+d)/n = -((a*d - b*c)/n) := by field_simp; ring
    have k21 : c - (c+d)*(a+c)/n = -((a*d - b*c)/n) := by field_simp; ring
    have k22 : d - (c+d)*(b+d)/n = (a*d - b*c)/n := by field_simp; ring
    have habsdiv : |(a*d - b*c)/n| = |a*d - b*c| / n := by
      rw [abs_div, abs_of_pos hNpos]
    have hMdiv : max (|a*d - b*c| / n - 1/2) 0 =
        max (|a*d - b*c| - n/2) 0 / n := by
      have hrw : |a*d - b*c| / n - 1/2 = (|a*d - b*c| - n/2) / n := by
        field_simp
        exact Or.inl (by ring)
      have h2 : max ((|a*d - b*c| - n/2)/n) ((0:ℚ)/n) =
          max (|a*d - b*c| - n/2) 0 / n := max_div_div_right hNpos.le _ _
      rw [zero_div] at h2
      rw [hrw, h2]
    cases hok
    simp only [yatesAdj_sq, k11, k12, k21, k22, abs_neg, habsdiv, hMdiv]
    rw [yatesChi2Spec]
    rw [div_pow]
    field_simp
    ring

/-- C4, counterexample: on the table `[[5,5],[1,9]]` (control: 10 users,
5 conversions; variant B: 10 users, 1 conversion), the emitted statistic
is the Yates-corrected 15/7 ≈ 2.143, not the Yates-uncorrected Pearson
value 80/21 ≈ 3.810 the claim names: scipy's `chi2_contingency` applies
the continuity correction by default on 2×2 tables. -/
theorem C4_uncorrected_counterexample :
    (statistical_significance_test
        [⟨"a1", "control", 1, 0, 0, 0, true⟩, ⟨"a2", "control", 1, 0, 0, 0, true⟩,
         ⟨"a3", "control", 1, 0, 0, 0, true⟩, ⟨"a4", "control", 1, 0, 0, 0, true⟩,
         ⟨"a5", "control", 1, 0, 0, 0, true⟩, ⟨"a6", "control", 0, 0, 0, 0, false⟩,
         ⟨"a7", "control", 0, 0, 0, 0, false⟩, ⟨"a8", "control", 0, 0, 0, 0, false⟩,
         ⟨"a9", "control", 0, 0, 0, 0, false⟩, ⟨"a10", "control", 0, 0, 0, 0, false⟩,
         ⟨"b1", "B", 1, 0, 0, 0, true⟩, ⟨"b2", "B", 0, 0, 0, 0, false⟩,
         ⟨"b3", "B", 0, 0, 0, 0, false⟩, ⟨"b4", "B", 0, 0, 0, 0, false⟩,
         ⟨"b5", "B", 0, 0, 0, 0, false⟩, ⟨"b6", "B", 0, 0, 0, 0, false⟩,
         ⟨"b7", "B", 0, 0, 0, 0, false⟩, ⟨"b8", "B", 0, 0, 0, 0, false⟩,
         ⟨"b9", "B", 0, 0, 0, 0, false⟩, ⟨"b10", "B", 0, 0, 0, 0, false⟩]
        "control").toOption.map (fun l => l.map (fun e => e.2.chi_square)) =
      some [15/7] ∧
    pearsonChi2_2x2 5 5 1 9 = 80/21 ∧ (15/7 : ℚ) ≠ 80/21 := by
  refine ⟨?_, by norm_num [pearsonChi2_2x2], by norm_num⟩
  simp [statistical_significance_test, sigLoop, chi2_contingency_2x2,
    uniqueKeep, uniqueAux, yatesAdj, mkSigEntry]
  norm_num [min_def, abs]
  exact ⟨_, rfl, rfl⟩

/-- Scenario family of the self-comparison property (spec section 8): a
control group of `n` users with `k` conversions, and a cloned variant
"B" with identical counts. -/
def cloneDF (n k : ℕ) : List Row :=
  List.replicate k ⟨"u", "control", 1, 0, 0, 0, true⟩ ++
    List.replicate (n - k) ⟨"u", "control", 0, 0, 0, 0, false⟩ ++
    List.replicate k ⟨"u", "B", 1, 0, 0, 0, true⟩ ++
    List.replicate (n - k) ⟨"u", "B", 0, 0, 0, 0, false⟩

lemma yatesAdj_self (o : ℚ) : yatesAdj o o = o := by
  unfold yatesAdj
  simp

lemma chi2_contingency_2x2_self (p q : ℚ) (hp : 0 < p) (hq : 0 < q) :
    chi2_contingency_2x2 p q p q = Except.ok 0 := by
  simp only [chi2_contingency_2x2]
  have e1 : (p + q) * (p + p) / (p + q + p + q) = p := by field_simp; ring
  have e2 : (p + q) * (q + q) / (p + q + p + q) = q := by field_simp; ring
  rw [if_neg]
  · simp only [e1, e2, yatesAdj_self]
    norm_num
  · push_neg
    exact ⟨by positivity, by positivity, by positivity, by positivity⟩

lemma uniqueAux_append_seen {α : Type} [DecidableEq α] (seen : List α)
    (l1 l2 : List α) (h : ∀ x ∈ l1, x ∈ seen) :
    uniqueAux seen (l1 ++ l2) = uniqueAux seen l2 := by
  induction l1 with
  | nil => rfl
  | cons a l ih =>
    rw [List.cons_append, uniqueAux, if_pos (h a (List.mem_cons_self _ _))]
    exact ih (fun x hx => h x (List.mem_cons_of_mem _ hx))

lemma uniqueAux_seen_nil {α : Type} [DecidableEq α] (seen : List α)
    (l : List α) (h : ∀ x ∈ l, x ∈ seen) : uniqueAux seen l = [] := by
  induction l with
  | nil => rfl
  | cons a l ih =>
    rw [uniqueAux, if_pos (h a (List.mem_cons_self _ _))]
    exact ih (fun x hx => h x (List.mem_cons_of_mem _ hx))

lemma cloneDF_variants (n k : ℕ) (hk : 0 < k) :
    uniqueKeep ((cloneDF n k).map (fun r => r.variant_id)) = ["control", "B"] := by
  have hmap : (cloneDF n k).map (fun r => r.variant_id) =
      List.replicate k "control" ++ (List.replicate (n - k) "control" ++
        (List.replicate k "B" ++ List.replicate (n - k) "B")) := by
    simp [cloneDF]
  obtain ⟨j, rfl⟩ : ∃ j, k = j + 1 := ⟨k - 1, (Nat.succ_pred_eq_of_pos hk).symm⟩
  rw [uniqueKeep, hmap, List.replicate_succ, List.cons_append]
  simp only [uniqueAux]
  rw [if_neg (by simp)]
  rw [uniqueAux_append_seen _ _ _
    (fun x hx => by simp [List.eq_of_mem_replicate hx])]
  rw [uniqueAux_append_seen _ _ _
    (fun x hx => by simp [List.eq_of_mem_replicate hx])]
  rw [List.replicate_succ, List.cons_append]
  simp only [uniqueAux]
  rw [if_neg (by simp)]
  rw [uniqueAux_seen_nil _ _ (fun x hx => by
    rcases List.mem_append.mp hx with h1 | h1 <;>
      simp [List.eq_of_mem_replicate h1])]

lemma cloneDF_filter_control (n k : ℕ) :
    (cloneDF n k).filter (fun r => r.variant_id == "control") =
      List.replicate k (⟨"u", "control", 1, 0, 0, 0, true⟩ : Row) ++
        List.replicate (n - k) (⟨"u", "control", 0, 0, 0, 0, false⟩ : Row) := by
  simp [cloneDF, List.filter_append, List.filter_replicate]

lemma cloneDF_filter_B (n k : ℕ) :
    (cloneDF n k).filter (fun r => r.variant_id == "B") =
      List.replicate k (⟨"u", "B", 1, 0, 0, 0, true⟩ : Row) ++
        List.replicate (n - k) (⟨"u", "B", 0, 0, 0, 0, false⟩ : Row) := by
  simp [cloneDF, List.filter_append, List.filter_replicate]

/-- C8, amended: comparing the control against a cloned variant with
identical counts yields relative lift 0, p-value 1.0 (the statistic is
exactly 0), and effect size 0 — provided the common counts are
non-degenerate (`0 < conversions < users`); the degenerate clones hit
the missing-guard crash recorded at C2. -/
theorem C8_clone_comparison (n k : ℕ) (hk : 0 < k) (hkn : k < n) :
    (statistical_significance_test (cloneDF n k) "control").toOption.map
      (fun l => l.map (fun e =>
        (e.1, e.2.chi_square, e.2.p_value, e.2.relative_lift_percent,
          e.2.effect_size))) =
      some [("control_vs_B", (0 : ℚ), (1 : ℝ), (0 : ℚ), (0 : ℝ))] := by
  have hn : 0 < n := hk.trans hkn
  have hcu : ((cloneDF n k).filter
      (fun r => r.variant_id == "control")).length = n := by
    rw [cloneDF_filter_control]
    simp [Nat.add_sub_cancel' hkn.le]
  have hcc : ((cloneDF n k).filter
      (fun r => r.variant_id == "control")).countP (fun r => r.converted) = k := by
    rw [cloneDF_filter_control, List.countP_append]
    simp [List.countP_eq_length_filter, List.filter_replicate]
  have hvu : ((cloneDF n k).filter
      (fun r => r.variant_id == "B")).length = n := by
    rw [cloneDF_filter_B]
    simp [Nat.add_sub_cancel' hkn.le]
  have hvc : ((cloneDF n k).filter
      (fun r => r.variant_id == "B")).countP (fun r => r.converted) = k := by
    rw [cloneDF_filter_B, List.countP_append]
    simp [List.countP_eq_length_filter, List.filter_replicate]
  have hKpos : (0 : ℚ) < (k : ℚ) := by exact_mod_cast hk
  have hMpos : (0 : ℚ) < (n : ℚ) - (k : ℚ) := by
    rw [sub_pos]
    exact_mod_cast hkn
  simp only [statistical_significance_test, cloneDF_variants n k hk, hcu, hcc]
  rw [if_neg (by omega)]
  rw [sigLoop, if_pos rfl, sigLoop, if_neg (by simp)]
  simp only [hvu, hvc]
  rw [chi2_contingency_2x2_self _ _ hKpos hMpos, sigLoop]
  simp only [Except.toOption, Option.map, List.map, mkSigEntry]
  rw [chi2SF1_zero]
  have hcr : (0 : ℚ) < (k : ℚ) / (n : ℚ) := by positivity
  simp [if_pos hn, if_pos hcr, Real.sqrt_eq_zero, sub_self]

/-- Witness for `C8_clone_comparison` at `n = 2`, `k = 1`. -/
theorem C8_clone_comparison_witness :
    (statistical_significance_test (cloneDF 2 1) "control").toOption.map
      (fun l => l.map (fun e =>
        (e.1, e.2.chi_square, e.2.p_value, e.2.relative_lift_percent,
          e.2.effect_size))) =
      some [("control_vs_B", (0 : ℚ), (1 : ℝ), (0 : ℚ), (0 : ℝ))] :=
  C8_clone_comparison 2 1 (by norm_num) (by norm_num)

/-- C8, counterexample: the claim quantifies over EVERY cloned variant
with identical counts, but a clone with zero conversions (here one user,
zero conversions on both sides) makes the table `[[0,1],[0,1]]`
degenerate and the call raises instead of producing
`p=1.0 / lift=0 / effect=0`. -/
theorem C8_degenerate_clone_counterexample :
    statistical_significance_test (cloneDF 1 0) "control" =
      Except.error SigError.zeroExpected := by
  simp [cloneDF, statistical_significance_test, sigLoop, chi2_contingency_2x2,
    uniqueKeep, uniqueAux, yatesAdj]

/-- C4, amended: the emitted chi-square statistic is the
Yates-CORRECTED statistic (scipy default on 2×2 tables), equal in closed
form to `N*(max(|ad-bc| - N/2, 0))²/(r1*r2*c1*c2)`, and each emitted
p-value is the chi-square(1) survival function evaluated at that
corrected statistic. -/
theorem C4_yates_corrected_statistic :
    (∀ a b c d x : ℚ, 0 ≤ a → 0 ≤ b → 0 ≤ c → 0 ≤ d →
      chi2_contingency_2x2 a b c d = Except.ok x →
      x = yatesChi2Spec a b c d) ∧
    (∀ (df : List Row) (control : String) (res : List (String × SigResult))
        (e : String × SigResult),
      statistical_significance_test df control = Except.ok res → e ∈ res →
      e.2.p_value = chi2SF1 e.2.chi_square) := by
  constructor
  · exact fun a b c d x ha hb hc hd hok =>
      chi2_contingency_2x2_eq_yates a b c d x ha hb hc hd hok
  · intro df control res e hok he
    simp only [statistical_significance_test] at hok
    by_cases hzero : (df.filter (fun r => r.variant_id == control)).length = 0
    · rw [if_pos hzero] at hok; cases hok
    · rw [if_neg hzero] at hok
      obtain ⟨w, chi2, rfl⟩ := sigLoop_ok_mem df control _ _ _ res e hok he
      rfl

/-- Witness for `C4_yates_corrected_statistic`: the first conjunct at the
table `[[1,1],[1,1]]`, the second at the four-row input that produces it. -/
theorem C4_yates_corrected_statistic_witness :
    ((0 : ℚ) = yatesChi2Spec 1 1 1 1) ∧
    (mkSigEntry "control" "B" 1 2 1 2 0).2.p_value =
      chi2SF1 (mkSigEntry "control" "B" 1 2 1 2 0).2.chi_square :=
  ⟨C4_yates_corrected_statistic.1 1 1 1 1 0 (by norm_num) (by norm_num)
      (by norm_num) (by norm_num) (chi2_contingency_2x2_self 1 1 one_pos one_pos),
    C4_yates_corrected_statistic.2
      [⟨"u1", "control", 1, 0, 0, 0, true⟩, ⟨"u2", "control", 0, 0, 0, 0, false⟩,
       ⟨"u3", "B", 1, 0, 0, 0, true⟩, ⟨"u4", "B", 0, 0, 0, 0, false⟩]
      "control" [mkSigEntry "control" "B" 1 2 1 2 0] _
      (by simp [statistical_significance_test, sigLoop, chi2_contingency_2x2,
            uniqueKeep, uniqueAux, yatesAdj]
          norm_num [min_def])
      (List.mem_singleton_self _)⟩

/-- Entry of the per-variant statistics dict of
`calculate_conversion_rates`.  The Wilson bounds are real-valued (a
square root); every other field is an exact rational. -/
structure VariantMetrics where
  users : ℕ
  conversions : ℕ
  conversion_rate : ℚ
  ci_lower : ℝ
  ci_upper : ℝ
  revenue_total : ℚ
  revenue_per_user : ℚ
  add_to_cart_rate : ℚ

/-- Statistics computed for one variant's rows (the loop body of
`calculate_conversion_rates`): conversion rate `conversions / n`, Wilson
score interval with `z = 1.96`, revenue totals/means, add-to-cart rate
with its `n > 0` guard. -/
noncomputable def mkVariantMetrics (vd : List Row) : VariantMetrics :=
  let n := vd.length
  let conversions := vd.countP (fun r => r.converted)
  let p : ℚ := (conversions : ℚ) / (n : ℚ)
  let z : ℚ := 196/100
  let denominator : ℚ := 1 + z^2 / (n : ℚ)
  let centre : ℚ := (p + z^2 / (2 * (n : ℚ))) / denominator
  let sd : ℝ := Real.sqrt (((p * (1 - p) + z^2 / (4 * (n : ℚ))) / (n : ℚ) : ℚ)) /
    (denominator : ℝ)
  { users := n
    conversions := conversions
    conversion_rate := p
    ci_lower := max 0 ((centre : ℝ) - (z : ℝ) * sd)
    ci_upper := min 1 ((centre : ℝ) + (z : ℝ) * sd)
    revenue_total := (vd.map Row.revenue).sum
    revenue_per_user := (vd.map Row.revenue).sum / (n : ℚ)
    add_to_cart_rate := if 0 < n then ((vd.map Row.add_to_carts).sum : ℚ) / (n : ℚ)
      else 0 }

/-- Embedding of `ABTestAnalyzer.calculate_conversion_rates`: one entry
per distinct variant (first-occurrence order), skipping a variant with
zero rows (`continue`). -/
noncomputable def calculate_conversion_rates (df : List Row) :
    List (String × VariantMetrics) :=
  (uniqueKeep (df.map (fun r => r.variant_id))).filterMap (fun v =>
    let vd := df.filter (fun r => r.variant_id == v)
    if vd.length = 0 then none else some (v, mkVariantMetrics vd))

/-- Lower Wilson bound written from the spec's displayed formula
(section 4.2). -/
noncomputable def wilsonLowerSpec (n : ℕ) (p : ℚ) : ℝ :=
  let z : ℝ := 196/100
  let denom : ℝ := 1 + z^2 / (n : ℝ)
  let center : ℝ := ((p : ℝ) + z^2 / (2 * (n : ℝ))) / denom
  let margin : ℝ := z * Real.sqrt (((p : ℝ) * (1 - (p : ℝ)) +
    z^2 / (4 * (n : ℝ))) / (n : ℝ)) / denom
  max 0 (center - margin)

/-- Upper Wilson bound written from the spec's displayed formula
(section 4.2). -/
noncomputable def wilsonUpperSpec (n : ℕ) (p : ℚ) : ℝ :=
  let z : ℝ := 196/100
  let denom : ℝ := 1 + z^2 / (n : ℝ)
  let center : ℝ := ((p : ℝ) + z^2 / (2 * (n : ℝ))) / denom
  let margin : ℝ := z * Real.sqrt (((p : ℝ) * (1 - (p : ℝ)) +
    z^2 / (4 * (n : ℝ))) / (n : ℝ)) / denom
  min 1 (center + margin)

lemma wilson_center_sandwich (z pr N : ℝ) (hz : 0 < z) (hN : 0 < N)
    (hp0 : 0 ≤ pr) (hp1 : pr ≤ 1) :
    (pr + z^2/(2*N)) / (1 + z^2/N) -
        z * Real.sqrt ((pr*(1-pr) + z^2/(4*N))/N) / (1 + z^2/N) ≤ pr ∧
      pr ≤ (pr + z^2/(2*N)) / (1 + z^2/N) +
        z * Real.sqrt ((pr*(1-pr) + z^2/(4*N))/N) / (1 + z^2/N) := by
  have hD : (0 : ℝ) < 1 + z^2/N := by positivity
  have hpp : 0 ≤ pr * (1 - pr) := mul_nonneg hp0 (by linarith)
  have hS : 0 ≤ (pr*(1-pr) + z^2/(4*N))/N := by positivity
  have hsqrt : 0 ≤ Real.sqrt ((pr*(1-pr) + z^2/(4*N))/N) := Real.sqrt_nonneg _
  have hsq : (Real.sqrt ((pr*(1-pr) + z^2/(4*N))/N))^2 =
      (pr*(1-pr) + z^2/(4*N))/N := Real.sq_sqrt hS
  have hcenter : (pr + z^2/(2*N)) / (1 + z^2/N) - pr =
      (z^2/N) * (1/2 - pr) / (1 + z^2/N) := by
    field_simp
    ring
  have hkey : ∀ t : ℝ, |t| = |1/2 - pr| →
      (z^2/N) * t ≤ z * Real.sqrt ((pr*(1-pr) + z^2/(4*N))/N) := by
    intro t ht
    have habs : (z^2/N) * t ≤ (z^2/N) * |1/2 - pr| := by
      have := le_abs_self t
      rw [ht] at this
      exact mul_le_mul_of_nonneg_left this (by positivity)
    refine habs.trans ?_
    have h1 : 0 ≤ (z^2/N) * |1/2 - pr| := by positivity
    have h2 : 0 ≤ z * Real.sqrt ((pr*(1-pr) + z^2/(4*N))/N) := by positivity
    rw [← Real.sqrt_sq h1, ← Real.sqrt_sq h2]
    apply Real.sqrt_le_sqrt
    have hexp : (1/2 - pr)^2 = 1/4 - pr * (1 - pr) := by ring
    rw [mul_pow, mul_pow, hsq, sq_abs, hexp, div_pow]
    have expand : z ^ 2 * ((pr * (1 - pr) + z ^ 2 / (4 * N)) / N) =
        z^2 * pr * (1-pr) / N + z^4/(4*N^2) := by
      field_simp
      ring
    rw [expand]
    have ha2 : 0 ≤ z^2 * (pr * (1-pr)) / N := by positivity
    have hb : 0 ≤ z^4 * (pr * (1-pr)) / N^2 := by positivity
    have hid : z ^ 2 * pr * (1 - pr) / N + z ^ 4 / (4 * N ^ 2) -
        (z ^ 2) ^ 2 / N ^ 2 * (1 / 4 - pr * (1 - pr)) =
        z^2 * (pr * (1-pr)) / N + z^4 * (pr * (1-pr)) / N^2 := by
      field_simp
      ring
    linarith [ha2, hb, hid]
  constructor
  · rw [sub_le_iff_le_add]
    have h := hkey (1/2 - pr) rfl
    have hstep : (pr + z^2/(2*N)) / (1 + z^2/N) - pr ≤
        z * Real.sqrt ((pr*(1-pr) + z^2/(4*N))/N) / (1 + z^2/N) := by
      rw [hcenter]
      exact (div_le_div_right hD).mpr h
    linarith
  · have h := hkey (pr - 1/2) (by rw [abs_sub_comm])
    have hstep : pr - (pr + z^2/(2*N)) / (1 + z^2/N) ≤
        z * Real.sqrt ((pr*(1-pr) + z^2/(4*N))/N) / (1 + z^2/N) := by
      have hneg : pr - (pr + z^2/(2*N)) / (1 + z^2/N) =
          (z^2/N) * (pr - 1/2) / (1 + z^2/N) := by
        field_simp
        ring
      rw [hneg]
      exact (div_le_div_right hD).mpr h
    linarith

lemma mkVariantMetrics_wilson (vd : List Row) (hn : vd.length ≠ 0) :
    (mkVariantMetrics vd).ci_lower = wilsonLowerSpec (mkVariantMetrics vd).users
        (mkVariantMetrics vd).conversion_rate ∧
    (mkVariantMetrics vd).ci_upper = wilsonUpperSpec (mkVariantMetrics vd).users
        (mkVariantMetrics vd).conversion_rate ∧
    0 ≤ (mkVariantMetrics vd).ci_lower ∧
    (mkVariantMetrics vd).ci_lower ≤ ((mkVariantMetrics vd).conversion_rate : ℝ) ∧
    ((mkVariantMetrics vd).conversion_rate : ℝ) ≤ (mkVariantMetrics vd).ci_upper ∧
    (mkVariantMetrics vd).ci_upper ≤ 1 := by
  have hn1 : 1 ≤ vd.length := Nat.one_le_iff_ne_zero.mpr hn
  have hNpos : (0:ℝ) < (vd.length : ℝ) := by exact_mod_cast hn1
  have hcle : vd.countP (fun r => r.converted) ≤ vd.length := List.countP_le_length _
  have hnqpos : (0:ℚ) < (vd.length : ℚ) := by exact_mod_cast hn1
  have hp0 : (0:ℝ) ≤ (((vd.countP (fun r => r.converted) : ℚ) /
      (vd.length : ℚ) : ℚ) : ℝ) := by positivity
  have hp1 : (((vd.countP (fun r => r.converted) : ℚ) /
      (vd.length : ℚ) : ℚ) : ℝ) ≤ 1 := by
    rw [show ((1:ℝ)) = ((1:ℚ):ℝ) from by norm_num]
    exact_mod_cast (div_le_one hnqpos).mpr (by exact_mod_cast hcle)
  have hsand := wilson_center_sandwich (196/100)
    (((vd.countP (fun r => r.converted) : ℚ) / (vd.length : ℚ) : ℚ) : ℝ)
    (vd.length : ℝ) (by norm_num) hNpos hp0 hp1
  push_cast at hp0 hp1 hsand
  have hlow : (mkVariantMetrics vd).ci_lower = wilsonLowerSpec
      (mkVariantMetrics vd).users (mkVariantMetrics vd).conversion_rate := by
    simp only [mkVariantMetrics, wilsonLowerSpec]
    push_cast
    rw [mul_div_assoc]
  have hup : (mkVariantMetrics vd).ci_upper = wilsonUpperSpec
      (mkVariantMetrics vd).users (mkVariantMetrics vd).conversion_rate := by
    simp only [mkVariantMetrics, wilsonUpperSpec]
    push_cast
    rw [mul_div_assoc]
  have hlowspec : wilsonLowerSpec (mkVariantMetrics vd).users
      (mkVariantMetrics vd).conversion_rate ≤
      ((mkVariantMetrics vd).conversion_rate : ℝ) := by
    simp only [mkVariantMetrics, wilsonLowerSpec]
    push_cast
    exact max_le hp0 hsand.1
  have hupspec : ((mkVariantMetrics vd).conversion_rate : ℝ) ≤
      wilsonUpperSpec (mkVariantMetrics vd).users
        (mkVariantMetrics vd).conversion_rate := by
    simp only [mkVariantMetrics, wilsonUpperSpec]
    push_cast
    exact le_min hp1 hsand.2
  refine ⟨hlow, hup, ?_, ?_, ?_, ?_⟩
  · rw [hlow]; exact le_max_left _ _
  · rw [hlow]; exact hlowspec
  · rw [hup]; exact hupspec
  · rw [hup]; exact min_le_left _ _

/-- C6: every emitted variant entry has at least one user, its confidence
interval equals the spec's Wilson formula (z = 1.96, clamped to [0,1]),
and `0 ≤ ci_lower ≤ conversion_rate ≤ ci_upper ≤ 1`. -/
theorem C6_wilson_interval (df : List Row) (v : String) (m : VariantMetrics)
    (hm : (v, m) ∈ calculate_conversion_rates df) :
    1 ≤ m.users ∧
    m.ci_lower = wilsonLowerSpec m.users m.conversion_rate ∧
    m.ci_upper = wilsonUpperSpec m.users m.conversion_rate ∧
    0 ≤ m.ci_lower ∧ m.ci_lower ≤ (m.conversion_rate : ℝ) ∧
    (m.conversion_rate : ℝ) ≤ m.ci_upper ∧ m.ci_upper ≤ 1 := by
  simp only [calculate_conversion_rates] at hm
  obtain ⟨w, hw, hsome⟩ := List.mem_filterMap.mp hm
  by_cases hlen : (df.filter (fun r => r.variant_id == w)).length = 0
  · rw [if_pos hlen] at hsome; cases hsome
  · rw [if_neg hlen] at hsome
    obtain ⟨hw1, hw2⟩ := Prod.mk.injEq .. ▸ Option.some_inj.mp hsome
    subst hw1
    subst hw2
    obtain ⟨h1, h2, h3, h4, h5, h6⟩ := mkVariantMetrics_wilson _ hlen
    exact ⟨Nat.one_le_iff_ne_zero.mpr hlen, h1, h2, h3, h4, h5, h6⟩

/-- Witness for `C6_wilson_interval` at a one-row input. -/
theorem C6_wilson_interval_witness :
    1 ≤ (mkVariantMetrics [⟨"u", "A", 1, 0, 0, 0, true⟩]).users ∧
    (mkVariantMetrics [⟨"u", "A", 1, 0, 0, 0, true⟩]).ci_lower =
      wilsonLowerSpec (mkVariantMetrics [⟨"u", "A", 1, 0, 0, 0, true⟩]).users
        (mkVariantMetrics [⟨"u", "A", 1, 0, 0, 0, true⟩]).conversion_rate ∧
    (mkVariantMetrics [⟨"u", "A", 1, 0, 0, 0, true⟩]).ci_upper =
      wilsonUpperSpec (mkVariantMetrics [⟨"u", "A", 1, 0, 0, 0, true⟩]).users
        (mkVariantMetrics [⟨"u", "A", 1, 0, 0, 0, true⟩]).conversion_rate ∧
    0 ≤ (mkVariantMetrics [⟨"u", "A", 1, 0, 0, 0, true⟩]).ci_lower ∧
    (mkVariantMetrics [⟨"u", "A", 1, 0, 0, 0, true⟩]).ci_lower ≤
      ((mkVariantMetrics [⟨"u", "A", 1, 0, 0, 0, true⟩]).conversion_rate : ℝ) ∧
    ((mkVariantMetrics [⟨"u", "A", 1, 0, 0, 0, true⟩]).conversion_rate : ℝ) ≤
      (mkVariantMetrics [⟨"u", "A", 1, 0, 0, 0, true⟩]).ci_upper ∧
    (mkVariantMetrics [⟨"u", "A", 1, 0, 0, 0, true⟩]).ci_upper ≤ 1 :=
  C6_wilson_interval [⟨"u", "A", 1, 0, 0, 0, true⟩] "A" _
    (by simp [calculate_conversion_rates, uniqueKeep, uniqueAux])

/-- CDF of the standard normal distribution, via Mathlib's Gaussian
measure — the mathematical function `scipy.stats.norm.cdf` computes. -/
noncomputable def stdNormalCDF (x : ℝ) : ℝ :=
  (ProbabilityTheory.gaussianReal 0 1 (Set.Iic x)).toReal

/-- Quantile of the standard normal distribution — the mathematical
function `scipy.stats.norm.ppf` computes on (0, 1).  The infinite/NaN
values scipy returns at or outside the boundary are not representable in
ℝ and are outside this model; no claim below depends on them. -/
noncomputable def stdNormalPPF (p : ℝ) : ℝ :=
  sSup {x : ℝ | stdNormalCDF x ≤ p}

/-- Real value of the two-proportion sample-size formula before the
ceiling, at given z-scores: the rational subterms are computed exactly
and injected into ℝ where the square roots apply. -/
noncomputable def sampleSizeVal (z_alpha z_beta : ℝ) (p1 mde : ℚ) : ℝ :=
  let p2 := p1 * (1 + mde)
  let p_pooled := (p1 + p2) / 2
  (z_alpha * Real.sqrt ((2 * p_pooled * (1 - p_pooled) : ℚ)) +
    z_beta * Real.sqrt ((p1 * (1 - p1) + p2 * (1 - p2) : ℚ)))^2 /
    (((p2 - p1)^2 : ℚ) : ℝ)

/-- Core of `sample_size_analysis` at given z-scores.  The script runs on
numpy floats with warnings suppressed: a negative argument to `np.sqrt`
yields NaN and `int(np.ceil(...))` then raises `ValueError`; a zero
denominator yields inf (or NaN) and `int(...)` raises as well.  Both
exceptional exits are modelled as `Except.error`; otherwise the ceiling
of the real-valued formula is returned. -/
noncomputable def sample_size_with_z (z_alpha z_beta : ℝ) (p1 mde : ℚ) :
    Except String ℤ :=
  let p2 := p1 * (1 + mde)
  let p_pooled := (p1 + p2) / 2
  if 2 * p_pooled * (1 - p_pooled) < 0 ∨ p1 * (1 - p1) + p2 * (1 - p2) < 0 then
    Except.error "nan"
  else if (p2 - p1)^2 = 0 then Except.error "zero denominator"
  else Except.ok ⌈sampleSizeVal z_alpha z_beta p1 mde⌉

/-- Embedding of `ABTestAnalyzer.sample_size_analysis`: z-scores from the
inverse normal CDF at `1 - alpha/2` and `power`, then the two-proportion
formula with `p2 = p1*(1+mde)`, rounded up. -/
noncomputable def sample_size_analysis (p1 mde : ℚ) (alpha : ℚ := 1/20)
    (power : ℚ := 4/5) : Except String ℤ :=
  sample_size_with_z (stdNormalPPF (1 - (alpha : ℝ) / 2))
    (stdNormalPPF (power : ℝ)) p1 mde

/-- C5, counterexample: with `p1 = -0.01 ≤ 0` but the (spec-valid,
nonzero) MDE `-51`, every intermediate stays in the float domain
(`p2 = 0.5`, both variance terms positive, nonzero denominator) and the
function returns a numeric sample size instead of signalling an error. -/
theorem C5_returns_despite_invalid_p1 :
    (sample_size_analysis (-1/100) (-51) (1/20) (4/5)).isOk = true := by
  simp only [sample_size_analysis, sample_size_with_z]
  rw [if_neg (by norm_num), if_neg (by norm_num)]
  rfl

/-- C5, amended: the function signals an error (rather than returning a
numeric sample size) whenever `mde = 0` (zero denominator), and whenever
`p1 ≤ 0` or `p1 ≥ 1` together with a POSITIVE mde (a variance term goes
negative, NaN propagates, `int()` raises); for `p1` outside (0,1) with a
suitable negative mde it can instead return a number (see the
counterexample). -/
theorem C5_invalid_params_error (p1 mde alpha power : ℚ)
    (h : mde = 0 ∨ ((p1 ≤ 0 ∨ 1 ≤ p1) ∧ 0 < mde)) :
    (sample_size_analysis p1 mde alpha power).isOk = false := by
  simp only [sample_size_analysis, sample_size_with_z]
  split
  · rfl
  · next hc1 =>
    split
    · rfl
    · next hc2 =>
      exfalso
      push_neg at hc1
      obtain ⟨hu, hv⟩ := hc1
      rcases h with h0 | ⟨hp, hm⟩
      · exact hc2 (by rw [h0]; ring_nf)
      · rcases hp with hp0 | hp1
        · rcases eq_or_lt_of_le hp0 with hz | hneg
          · exact hc2 (by rw [hz]; ring_nf)
          · have hp2 : p1 * (1 + mde) < p1 := by nlinarith
            have : p1 * (1 - p1) + (p1 * (1 + mde)) * (1 - p1 * (1 + mde)) < 0 := by
              nlinarith [sq_nonneg p1, sq_nonneg (p1 * (1 + mde))]
            exact absurd this (not_lt.mpr hv)
        · have hb1 : 1 < p1 * (1 + mde) := by nlinarith
          have : p1 * (1 - p1) + (p1 * (1 + mde)) * (1 - p1 * (1 + mde)) < 0 := by
            nlinarith [mul_pos (sub_pos.mpr hb1) (lt_trans one_pos hb1),
              mul_nonneg (sub_nonneg.mpr hp1) (le_trans zero_le_one hp1)]
          exact absurd this (not_lt.mpr hv)

/-- Witness for `C5_invalid_params_error` at `p1 = 2`, `mde = 1`. -/
theorem C5_invalid_params_error_witness :
    (sample_size_analysis 2 1 (1/20) (4/5)).isOk = false :=
  C5_invalid_params_error 2 1 (1/20) (4/5)
    (Or.inr ⟨Or.inr (by norm_num), by norm_num⟩)

lemma ssBracket_pos (a b b' : ℚ) (ha : 0 < a) (hab : a < b) (hbb : b < b')
    (hb1 : b' < 1) :
    0 < 2*a*(1-a)*((b-a) + (b'-a)) + (b-a)*(b'-a)*(1-2*a) := by
  have ha1 : a < 1 := hab.trans (hbb.trans hb1)
  have hd : 0 < b - a := sub_pos.mpr hab
  have hd' : 0 < b' - a := sub_pos.mpr (hab.trans hbb)
  rcases le_or_lt a (1/2) with hhalf | hhalf
  · have h1 : 0 < 2*a*(1-a) := by nlinarith
    have h2 : (0:ℚ) < (b-a) + (b'-a) := by linarith
    have h3 : 0 ≤ (b-a)*(b'-a)*(1-2*a) :=
      mul_nonneg (mul_nonneg hd.le hd'.le) (by linarith)
    nlinarith [mul_pos h1 h2]
  · have hX : (b'-a)*(1-2*a) < 0 := mul_neg_of_pos_of_neg hd' (by linarith)
    have hdb : b - a < 1 - a := by linarith
    have hF1 : (1-a)*((b'-a)*(1-2*a)) < (b-a)*((b'-a)*(1-2*a)) :=
      mul_lt_mul_of_neg_right hdb hX
    have hF2 : 0 ≤ 2*a*(1-a)*(b-a) := by
      apply mul_nonneg
      apply mul_nonneg <;> linarith
      exact hd.le
    have hF3 : 0 < (1-a)*(b'-a) := mul_pos (by linarith) hd'
    nlinarith [hF1, hF2, hF3]

lemma ssU_strict (a b b' : ℚ) (ha : 0 < a) (hab : a < b) (hbb : b < b')
    (hb1 : b' < 1) :
    (2*((a+b')/2)*(1-(a+b')/2)) * (b-a)^2 <
      (2*((a+b)/2)*(1-(a+b)/2)) * (b'-a)^2 := by
  have key : (2*((a+b)/2)*(1-(a+b)/2)) * (b'-a)^2 -
      (2*((a+b')/2)*(1-(a+b')/2)) * (b-a)^2 =
      ((b'-a)-(b-a)) * (2*a*(1-a)*((b-a) + (b'-a)) + (b-a)*(b'-a)*(1-2*a)) := by
    ring
  have hbr := ssBracket_pos a b b' ha hab hbb hb1
  nlinarith [mul_pos (show (0:ℚ) < (b'-a)-(b-a) by linarith) hbr]

lemma ssV_strict (a b b' : ℚ) (ha : 0 < a) (hab : a < b) (hbb : b < b')
    (hb1 : b' < 1) :
    (a*(1-a) + b'*(1-b')) * (b-a)^2 < (a*(1-a) + b*(1-b)) * (b'-a)^2 := by
  have key : (a*(1-a) + b*(1-b)) * (b'-a)^2 - (a*(1-a) + b'*(1-b')) * (b-a)^2 =
      ((b'-a)-(b-a)) * (2*a*(1-a)*((b-a) + (b'-a)) + (b-a)*(b'-a)*(1-2*a)) := by
    ring
  have hbr := ssBracket_pos a b b' ha hab hbb hb1
  nlinarith [mul_pos (show (0:ℚ) < (b'-a)-(b-a) by linarith) hbr]

lemma sqrt_div_strict (u1 u2 w1 w2 : ℝ) (hu2 : 0 ≤ u2) (hw1 : 0 < w1)
    (hw2 : 0 < w2) (h : u2 * w1^2 < u1 * w2^2) :
    Real.sqrt u2 / w2 < Real.sqrt u1 / w1 := by
  have hu1 : 0 < u1 := by nlinarith [mul_nonneg hu2 (sq_nonneg w1), sq_nonneg w2]
  rw [div_lt_div_iff hw2 hw1]
  have h1 : Real.sqrt u2 * w1 = Real.sqrt (u2 * w1^2) := by
    rw [Real.sqrt_mul hu2, Real.sqrt_sq hw1.le]
  have h2 : Real.sqrt u1 * w2 = Real.sqrt (u1 * w2^2) := by
    rw [Real.sqrt_mul hu1.le, Real.sqrt_sq hw2.le]
  rw [h1, h2]
  exact Real.sqrt_lt_sqrt (by positivity) h

/-- C7, counterexample: with baseline 0.10 and defaults held fixed, the
MDE pair (0.1, 20) — both valid by the spec's own error domain, which
rules out only `mde = 0` — does not give a strictly smaller sample size
at the larger MDE: `p2 = p1*(1+20) = 2.1` leaves the float domain, a
variance term goes negative, and the call raises instead of returning a
number. -/
theorem C7_strict_monotonicity_counterexample :
    ¬ ∃ n1 n2 : ℤ,
      sample_size_analysis (1/10) (1/10) (1/20) (4/5) = Except.ok n1 ∧
        sample_size_analysis (1/10) 20 (1/20) (4/5) = Except.ok n2 ∧ n2 < n1 := by
  rintro ⟨n1, n2, -, h2, -⟩
  simp only [sample_size_analysis, sample_size_with_z] at h2
  rw [if_pos (by norm_num)] at h2
  cases h2

/-- C7, amended: on the domain where the formula is float-representable
(`0 < mde` and `p2 = p1*(1+mde) < 1`) and the z-scores are nonnegative,
both calls return, the REAL-valued formula is strictly decreasing in mde
(given a nonzero z-score) and strictly increasing in the power z-score,
and the returned integer (the ceiling) is therefore weakly — not
strictly — monotonic in each direction. -/
theorem C7_monotonicity_amended (za zb zb' : ℝ) (p1 m1 m2 : ℚ)
    (hza : 0 ≤ za) (hzb : 0 ≤ zb) (hp1 : 0 < p1) (hm1 : 0 < m1)
    (hm12 : m1 < m2) (hdom : p1 * (1 + m2) < 1) :
    (sample_size_with_z za zb p1 m1 = Except.ok ⌈sampleSizeVal za zb p1 m1⌉ ∧
      sample_size_with_z za zb p1 m2 = Except.ok ⌈sampleSizeVal za zb p1 m2⌉) ∧
    ((0 < za ∨ 0 < zb) →
      sampleSizeVal za zb p1 m2 < sampleSizeVal za zb p1 m1 ∧
      ⌈sampleSizeVal za zb p1 m2⌉ ≤ ⌈sampleSizeVal za zb p1 m1⌉) ∧
    (zb < zb' →
      sampleSizeVal za zb p1 m1 < sampleSizeVal za zb' p1 m1 ∧
      ⌈sampleSizeVal za zb p1 m1⌉ ≤ ⌈sampleSizeVal za zb' p1 m1⌉) := by
  have hab : p1 < p1 * (1 + m1) := by nlinarith
  have hbb : p1 * (1 + m1) < p1 * (1 + m2) := by nlinarith
  have hb1 : p1 * (1 + m2) < 1 := hdom
  have hp11 : p1 < 1 := hab.trans (hbb.trans hb1)
  have hU1pos : 0 < 2*((p1 + p1*(1+m1))/2)*(1-(p1 + p1*(1+m1))/2) := by nlinarith
  have hU2pos : 0 < 2*((p1 + p1*(1+m2))/2)*(1-(p1 + p1*(1+m2))/2) := by nlinarith
  have hV1pos : 0 < p1*(1-p1) + (p1*(1+m1))*(1-(p1*(1+m1))) := by nlinarith
  have hV2pos : 0 < p1*(1-p1) + (p1*(1+m2))*(1-(p1*(1+m2))) := by nlinarith
  have hW1pos : (0:ℚ) < p1*(1+m1) - p1 := sub_pos.mpr hab
  have hW2pos : (0:ℚ) < p1*(1+m2) - p1 := sub_pos.mpr (hab.trans hbb)
  have hUr := ssU_strict p1 (p1*(1+m1)) (p1*(1+m2)) hp1 hab hbb hb1
  have hVr := ssV_strict p1 (p1*(1+m1)) (p1*(1+m2)) hp1 hab hbb hb1
  -- real-valued forms of the quantities
  have hW1R : (0:ℝ) < ((p1*(1+m1) - p1 : ℚ) : ℝ) := by exact_mod_cast hW1pos
  have hW2R : (0:ℝ) < ((p1*(1+m2) - p1 : ℚ) : ℝ) := by exact_mod_cast hW2pos
  have hsu : Real.sqrt ((2*((p1 + p1*(1+m2))/2)*(1-(p1 + p1*(1+m2))/2) : ℚ)) /
        ((p1*(1+m2) - p1 : ℚ) : ℝ) <
      Real.sqrt ((2*((p1 + p1*(1+m1))/2)*(1-(p1 + p1*(1+m1))/2) : ℚ)) /
        ((p1*(1+m1) - p1 : ℚ) : ℝ) := by
    apply sqrt_div_strict _ _ _ _ (by exact_mod_cast hU2pos.le) hW1R hW2R
    exact_mod_cast hUr
  have hsv : Real.sqrt ((p1*(1-p1) + (p1*(1+m2))*(1-(p1*(1+m2))) : ℚ)) /
        ((p1*(1+m2) - p1 : ℚ) : ℝ) <
      Real.sqrt ((p1*(1-p1) + (p1*(1+m1))*(1-(p1*(1+m1))) : ℚ)) /
        ((p1*(1+m1) - p1 : ℚ) : ℝ) := by
    apply sqrt_div_strict _ _ _ _ (by exact_mod_cast hV2pos.le) hW1R hW2R
    exact_mod_cast hVr
  have hform : ∀ (zA zB : ℝ) (m : ℚ),
      sampleSizeVal zA zB p1 m =
      (zA * (Real.sqrt ((2*((p1 + p1*(1+m))/2)*(1-(p1 + p1*(1+m))/2) : ℚ)) /
          ((p1*(1+m) - p1 : ℚ) : ℝ)) +
        zB * (Real.sqrt ((p1*(1-p1) + (p1*(1+m))*(1-(p1*(1+m))) : ℚ)) /
          ((p1*(1+m) - p1 : ℚ) : ℝ)))^2 := by
    intro zA zB m
    simp only [sampleSizeVal]
    rw [show (zA * (Real.sqrt ((2*((p1 + p1*(1+m))/2)*(1-(p1 + p1*(1+m))/2) : ℚ)) /
          ((p1*(1+m) - p1 : ℚ) : ℝ)) +
        zB * (Real.sqrt ((p1*(1-p1) + (p1*(1+m))*(1-(p1*(1+m))) : ℚ)) /
          ((p1*(1+m) - p1 : ℚ) : ℝ))) =
        (zA * Real.sqrt ((2*((p1 + p1*(1+m))/2)*(1-(p1 + p1*(1+m))/2) : ℚ)) +
          zB * Real.sqrt ((p1*(1-p1) + (p1*(1+m))*(1-(p1*(1+m))) : ℚ))) /
          ((p1*(1+m) - p1 : ℚ) : ℝ) from by ring, div_pow]
    congr 1
    push_cast
    ring
  have hT1nonneg : 0 ≤ za * (Real.sqrt
        ((2*((p1 + p1*(1+m1))/2)*(1-(p1 + p1*(1+m1))/2) : ℚ)) /
        ((p1*(1+m1) - p1 : ℚ) : ℝ)) +
      zb * (Real.sqrt ((p1*(1-p1) + (p1*(1+m1))*(1-(p1*(1+m1))) : ℚ)) /
        ((p1*(1+m1) - p1 : ℚ) : ℝ)) := by
    apply add_nonneg <;> apply mul_nonneg
    · exact hza
    · positivity
    · exact hzb
    · positivity
  have hT2nonneg : 0 ≤ za * (Real.sqrt
        ((2*((p1 + p1*(1+m2))/2)*(1-(p1 + p1*(1+m2))/2) : ℚ)) /
        ((p1*(1+m2) - p1 : ℚ) : ℝ)) +
      zb * (Real.sqrt ((p1*(1-p1) + (p1*(1+m2))*(1-(p1*(1+m2))) : ℚ)) /
        ((p1*(1+m2) - p1 : ℚ) : ℝ)) := by
    apply add_nonneg <;> apply mul_nonneg
    · exact hza
    · positivity
    · exact hzb
    · positivity
  have hok : ∀ m : ℚ, 0 < 2*((p1 + p1*(1+m))/2)*(1-(p1 + p1*(1+m))/2) →
      0 < p1*(1-p1) + (p1*(1+m))*(1-(p1*(1+m))) → 0 < p1*(1+m) - p1 →
      sample_size_with_z za zb p1 m = Except.ok ⌈sampleSizeVal za zb p1 m⌉ := by
    intro m hU hV hW
    simp only [sample_size_with_z]
    rw [if_neg (by push_neg; constructor <;> nlinarith), if_neg (by
      intro hzero
      exact absurd (pow_eq_zero_iff two_ne_zero |>.mp hzero) (ne_of_gt hW))]
  refine ⟨⟨hok m1 hU1pos hV1pos hW1pos, hok m2 hU2pos hV2pos hW2pos⟩, ?_, ?_⟩
  · intro hor
    have hTlt : za * (Real.sqrt
          ((2*((p1 + p1*(1+m2))/2)*(1-(p1 + p1*(1+m2))/2) : ℚ)) /
          ((p1*(1+m2) - p1 : ℚ) : ℝ)) +
        zb * (Real.sqrt ((p1*(1-p1) + (p1*(1+m2))*(1-(p1*(1+m2))) : ℚ)) /
          ((p1*(1+m2) - p1 : ℚ) : ℝ)) <
        za * (Real.sqrt ((2*((p1 + p1*(1+m1))/2)*(1-(p1 + p1*(1+m1))/2) : ℚ)) /
          ((p1*(1+m1) - p1 : ℚ) : ℝ)) +
        zb * (Real.sqrt ((p1*(1-p1) + (p1*(1+m1))*(1-(p1*(1+m1))) : ℚ)) /
          ((p1*(1+m1) - p1 : ℚ) : ℝ)) := by
      rcases hor with hza' | hzb'
      · exact add_lt_add_of_lt_of_le (mul_lt_mul_of_pos_left hsu hza')
          (mul_le_mul_of_nonneg_left hsv.le hzb)
      · exact add_lt_add_of_le_of_lt (mul_le_mul_of_nonneg_left hsu.le hza)
          (mul_lt_mul_of_pos_left hsv hzb')
    have hvallt : sampleSizeVal za zb p1 m2 < sampleSizeVal za zb p1 m1 := by
      rw [hform za zb m1, hform za zb m2]
      exact pow_lt_pow_left hTlt hT2nonneg two_ne_zero
    exact ⟨hvallt, Int.ceil_le_ceil hvallt.le⟩
  · intro hzb'
    have hsv1pos : 0 < Real.sqrt
        ((p1*(1-p1) + (p1*(1+m1))*(1-(p1*(1+m1))) : ℚ)) /
        ((p1*(1+m1) - p1 : ℚ) : ℝ) := by
      apply div_pos _ hW1R
      rw [Real.sqrt_pos]
      exact_mod_cast hV1pos
    have hTlt : za * (Real.sqrt
          ((2*((p1 + p1*(1+m1))/2)*(1-(p1 + p1*(1+m1))/2) : ℚ)) /
          ((p1*(1+m1) - p1 : ℚ) : ℝ)) +
        zb * (Real.sqrt ((p1*(1-p1) + (p1*(1+m1))*(1-(p1*(1+m1))) : ℚ)) /
          ((p1*(1+m1) - p1 : ℚ) : ℝ)) <
        za * (Real.sqrt ((2*((p1 + p1*(1+m1))/2)*(1-(p1 + p1*(1+m1))/2) : ℚ)) /
          ((p1*(1+m1) - p1 : ℚ) : ℝ)) +
        zb' * (Real.sqrt ((p1*(1-p1) + (p1*(1+m1))*(1-(p1*(1+m1))) : ℚ)) /
          ((p1*(1+m1) - p1 : ℚ) : ℝ)) :=
      add_lt_add_left (mul_lt_mul_of_pos_right hzb' hsv1pos) _
    have hvallt : sampleSizeVal za zb p1 m1 < sampleSizeVal za zb' p1 m1 := by
      rw [hform za zb m1, hform za zb' m1]
      exact pow_lt_pow_left hTlt hT1nonneg two_ne_zero
    exact ⟨hvallt, Int.ceil_le_ceil hvallt.le⟩

/-- Witness for `C7_monotonicity_amended` at concrete parameters. -/
theorem C7_monotonicity_amended_witness :
    (sample_size_with_z 1 1 (1/10) (1/10) =
        Except.ok ⌈sampleSizeVal 1 1 (1/10) (1/10)⌉ ∧
      sample_size_with_z 1 1 (1/10) (1/5) =
        Except.ok ⌈sampleSizeVal 1 1 (1/10) (1/5)⌉) ∧
    ((0 < (1:ℝ) ∨ 0 < (1:ℝ)) →
      sampleSizeVal 1 1 (1/10) (1/5) < sampleSizeVal 1 1 (1/10) (1/10) ∧
      ⌈sampleSizeVal 1 1 (1/10) (1/5)⌉ ≤ ⌈sampleSizeVal 1 1 (1/10) (1/10)⌉) ∧
    ((1:ℝ) < 2 →
      sampleSizeVal 1 1 (1/10) (1/10) < sampleSizeVal 1 2 (1/10) (1/10) ∧
      ⌈sampleSizeVal 1 1 (1/10) (1/10)⌉ ≤ ⌈sampleSizeVal 1 2 (1/10) (1/10)⌉) :=
  C7_monotonicity_amended 1 1 2 (1/10) (1/10) (1/5) (by norm_num) (by norm_num)
    (by norm_num) (by norm_num) (by norm_num) (by norm_num)
